import Mathlib

/-!
# Verification of the MPC core (`ros/src/mpc/src/MPC.cpp`)

A shallow embedding of the model-predictive-controller core: the polynomial
fitting and evaluation helpers, the `FG_eval` cost/constraint functor, the
offset layout computed by the `MPC` constructor, and the bound arrays and
result extraction of `MPC::Solve`.

Modelling conventions:
* machine `double`s are modelled by exact rationals `ℚ`, and the CppAD
  `AD<double>` expressions by an arbitrary field `R`;
* the transcendental functions `cos`, `sin`, `atan` are abstract parameters
  `cosF sinF atanF : R → R` (every theorem holds for the real functions as a
  special case);
* the external libraries (Eigen's QR solver, CppAD/IPOPT) are abstract
  parameters: the embedding covers exactly the code written in MPC.cpp;
* a C++ `assert` is modelled by returning `Option.none`;
* the header `MPC.h` is not part of the repository, so the `Params` record
  carries the fields that MPC.cpp reads from it, and the macro
  `SPEED_UPPERBOUND` is an explicit parameter `speed_ub`.
-/

namespace MPCModel

/-- The `Indexes` record of offsets into the flat decision-variable array
(the fields are exactly those MPC.cpp reads from `m_indexes`). -/
structure Indexes where
  x_start : ℕ
  y_start : ℕ
  psi_start : ℕ
  cte_start : ℕ
  epsi_start : ℕ
  delta_start : ℕ
  v_start : ℕ
  deriving Repr, DecidableEq

/-- The configuration record `Params` read by MPC.cpp.  The header defining
it is absent from the repository; the fields are the ones MPC.cpp uses,
matching the spec's Params (horizon `N` = `steps_ahead`, timestep `dt`,
cost weights, smoothing weights, target speed `ref_v`). -/
structure Params (R : Type) where
  steps_ahead : ℕ
  dt : R
  ref_v : R
  cte_coeff : R
  epsi_coeff : R
  speed_coeff : R
  steer_coeff : R
  consec_steer_coeff : R
  consec_speed_coeff : R

/-- `Lf()` (MPC.cpp line 65): effective front-to-CoG length. -/
def Lf (R : Type) [Field R] : R := 0.325

/-- `delta_constraint()` (MPC.cpp line 68): steering bound in degrees. -/
def delta_constraint : ℚ := 25

/-- `polyeval` (MPC.cpp lines 37-43): `result += coeffs[i] * pow(x, i)` for
`i = 0 .. coeffs.size()-1`.  The same summation loop computes `f0` inside
`FG_eval::operator()` (lines 147-149), hence the ring is generic. -/
def polyeval {R : Type} [CommRing R] (coeffs : List R) (x : R) : R :=
  (List.range coeffs.length).foldl (fun result i => result + coeffs.getD i 0 * x ^ i) 0

/-- `polyeval_diff` (MPC.cpp lines 46-52): `result += i * coeffs[i] *
pow(x, i-1)` for `i = 1 .. coeffs.size()-1`.  The same loop computes
`fdiff0` inside `FG_eval::operator()` (lines 151-153). -/
def polyeval_diff {R : Type} [CommRing R] (coeffs : List R) (x : R) : R :=
  (List.range' 1 (coeffs.length - 1)).foldl
    (fun result (i : ℕ) => result + (i : R) * coeffs.getD i 0 * x ^ (i - 1)) 0

/-- The entry `A(j, i)` of the design matrix built by `polyfit`
(MPC.cpp lines 18-28): `A(j, 0) = 1` and `A(j, i+1) = A(j, i) * xvals(j)`. -/
def buildA (xs : List ℚ) (j : ℕ) : ℕ → ℚ
  | 0 => 1
  | i + 1 => buildA xs j i * xs.getD j 0

/-- `polyfit` (MPC.cpp lines 15-33).  The two `assert`s are modelled by
`Option.none`; the Eigen call `A.householderQr().solve(yvals)` is the
abstract external solver `qr` applied to the design matrix and `yvals`. -/
def polyfit (qr : (ℕ → ℕ → ℚ) → List ℚ → List ℚ) (xs ys : List ℚ) (order : ℤ) :
    Option (List ℚ) :=
  if xs.length = ys.length ∧ 1 ≤ order ∧ order ≤ (xs.length : ℤ) - 1 then
    some (qr (fun j i => buildA xs j i) ys)
  else none

/-- The offset computation of the `MPC` constructor (MPC.cpp lines 180-190). -/
def mkIndexes (N : ℕ) : Indexes :=
  let x_start := 0
  let y_start := x_start + N
  let psi_start := y_start + N
  let cte_start := psi_start + N
  let epsi_start := cte_start + N
  let delta_start := epsi_start + N
  let v_start := delta_start + N - 1
  ⟨x_start, y_start, psi_start, cte_start, epsi_start, delta_start, v_start⟩

/-- The `MPC` constructor (MPC.cpp lines 180-194): computes the offsets and
checks `assert(params.ref_v < SPEED_UPPERBOUND)` (the macro value comes from
the absent header, so it is the parameter `speed_ub`).  No other field of
`params` is validated. -/
def MPC.construct (p : Params ℚ) (speed_ub : ℚ) : Option Indexes :=
  if p.ref_v < speed_ub then some (mkIndexes p.steps_ahead) else none

/-- `n_vars` of `MPC::Solve` (MPC.cpp line 208). -/
def n_vars (N : ℕ) : ℕ := N * 5 + (N - 1) * 2

/-- `n_constraints` of `MPC::Solve` (MPC.cpp line 209). -/
def n_constraints (N : ℕ) : ℕ := N * 5

@[simp] theorem mkIndexes_x_start (N : ℕ) : (mkIndexes N).x_start = 0 := rfl

@[simp] theorem mkIndexes_y_start (N : ℕ) : (mkIndexes N).y_start = N := by
  simp [mkIndexes]

@[simp] theorem mkIndexes_psi_start (N : ℕ) : (mkIndexes N).psi_start = 2 * N := by
  simp [mkIndexes]; omega

@[simp] theorem mkIndexes_cte_start (N : ℕ) : (mkIndexes N).cte_start = 3 * N := by
  simp [mkIndexes]; omega

@[simp] theorem mkIndexes_epsi_start (N : ℕ) : (mkIndexes N).epsi_start = 4 * N := by
  simp [mkIndexes]; omega

@[simp] theorem mkIndexes_delta_start (N : ℕ) : (mkIndexes N).delta_start = 5 * N := by
  simp [mkIndexes]; omega

@[simp] theorem mkIndexes_v_start (N : ℕ) : (mkIndexes N).v_start = 5 * N + N - 1 := by
  simp [mkIndexes]; omega

/-- Folding `+ f i` over a list equals the initial value plus the sum. -/
theorem foldl_add_eq {M : Type} [AddCommMonoid M] (f : ℕ → M) (l : List ℕ) (init : M) :
    l.foldl (fun acc i => acc + f i) init = init + (l.map f).sum := by
  induction l generalizing init with
  | nil => simp
  | cons a l ih => simp [ih, add_assoc]

/-- Summing a function mapped over `List.range n` is the `Finset.range` sum. -/
theorem sum_map_range {M : Type} [AddCommMonoid M] (f : ℕ → M) (n : ℕ) :
    ((List.range n).map f).sum = ∑ i in Finset.range n, f i := by
  induction n with
  | zero => simp
  | succ n ih => rw [List.range_succ]; simp [ih, Finset.sum_range_succ]

/-- Summing a function mapped over `List.range' a n` is the `Finset.Ico` sum. -/
theorem sum_map_range' {M : Type} [AddCommMonoid M] (f : ℕ → M) (n : ℕ) :
    ∀ a : ℕ, ((List.range' a n).map f).sum = ∑ i in Finset.Ico a (a + n), f i := by
  induction n with
  | zero => intro a; simp
  | succ n ih =>
      intro a
      rw [List.range'_succ]
      have hab : a < a + (n + 1) := by omega
      rw [Finset.sum_eq_sum_Ico_succ_bot hab]
      have harange : a + 1 + n = a + (n + 1) := by omega
      simp [ih (a + 1), harange]

/-- `polyeval` as a `Finset.range` sum. -/
theorem polyeval_eq_sum {R : Type} [CommRing R] (coeffs : List R) (x : R) :
    polyeval coeffs x = ∑ i in Finset.range coeffs.length, coeffs.getD i 0 * x ^ i := by
  rw [polyeval, foldl_add_eq (fun i => coeffs.getD i 0 * x ^ i), sum_map_range, zero_add]

/-- `polyeval_diff` as a `Finset.Ico` sum over `i = 1 .. coeffs.length - 1`. -/
theorem polyeval_diff_eq_sum {R : Type} [CommRing R] (coeffs : List R) (x : R) :
    polyeval_diff coeffs x =
      ∑ i in Finset.Ico 1 coeffs.length, (i : R) * coeffs.getD i 0 * x ^ (i - 1) := by
  rw [polyeval_diff, foldl_add_eq (fun i => (i : R) * coeffs.getD i 0 * x ^ (i - 1)),
    sum_map_range', zero_add]
  rcases Nat.eq_zero_or_pos coeffs.length with h | h
  · rw [h]; simp
  · have hlen : 1 + (coeffs.length - 1) = coeffs.length := by omega
    rw [hlen]

/-- The cost `fg[0]` accumulated by `FG_eval::operator()` (MPC.cpp lines
93-111): three sequential loops adding the reference-state penalties, the
actuator penalties, and the consecutive-actuation gap penalties. -/
def FG_cost {R : Type} [Field R] (p : Params R) (idx : Indexes) (ref_v : R)
    (vars : ℕ → R) : R :=
  let fg0 : R := 0
  let fg0 := (List.range p.steps_ahead).foldl (fun acc t =>
    acc + p.cte_coeff * vars (idx.cte_start + t) ^ 2
        + p.epsi_coeff * vars (idx.epsi_start + t) ^ 2) fg0
  let fg0 := (List.range (p.steps_ahead - 1)).foldl (fun acc t =>
    acc + p.speed_coeff * (vars (idx.v_start + t) - ref_v) ^ 2
        + p.steer_coeff * vars (idx.delta_start + t) ^ 2) fg0
  let fg0 := (List.range (p.steps_ahead - 2)).foldl (fun acc t =>
    acc + p.consec_steer_coeff * (vars (idx.delta_start + t + 1) - vars (idx.delta_start + t)) ^ 2
        + p.consec_speed_coeff * (vars (idx.v_start + t + 1) - vars (idx.v_start + t)) ^ 2) fg0
  fg0

/-- `fg[1 + x_start + t] = x1 - (x0 + v0 * cos(psi0) * dt)` (MPC.cpp line 166). -/
def xResidual {R : Type} [Field R] (cosF : R → R) (p : Params R) (idx : Indexes)
    (vars : ℕ → R) (t : ℕ) : R :=
  vars (idx.x_start + t) -
    (vars (idx.x_start + t - 1) +
      vars (idx.v_start + t - 1) * cosF (vars (idx.psi_start + t - 1)) * p.dt)

/-- `fg[1 + y_start + t] = y1 - (y0 + v0 * sin(psi0) * dt)` (MPC.cpp line 167). -/
def yResidual {R : Type} [Field R] (sinF : R → R) (p : Params R) (idx : Indexes)
    (vars : ℕ → R) (t : ℕ) : R :=
  vars (idx.y_start + t) -
    (vars (idx.y_start + t - 1) +
      vars (idx.v_start + t - 1) * sinF (vars (idx.psi_start + t - 1)) * p.dt)

/-- `fg[1 + psi_start + t] = psi1 - (psi0 - v0 * delta0 / Lf() * dt)`
(MPC.cpp line 169). -/
def psiResidual {R : Type} [Field R] (p : Params R) (idx : Indexes)
    (vars : ℕ → R) (t : ℕ) : R :=
  vars (idx.psi_start + t) -
    (vars (idx.psi_start + t - 1) -
      vars (idx.v_start + t - 1) * vars (idx.delta_start + t - 1) / Lf R * p.dt)

/-- `fg[1 + cte_start + t] = cte1 - (f0 - y0 + (v0 * sin(epsi0) * dt))`
(MPC.cpp line 170), where `f0` is the polynomial loop of lines 147-149. -/
def cteResidual {R : Type} [Field R] (sinF : R → R) (coeffs : List R) (p : Params R)
    (idx : Indexes) (vars : ℕ → R) (t : ℕ) : R :=
  vars (idx.cte_start + t) -
    (polyeval coeffs (vars (idx.x_start + t - 1)) - vars (idx.y_start + t - 1) +
      vars (idx.v_start + t - 1) * sinF (vars (idx.epsi_start + t - 1)) * p.dt)

/-- `fg[1 + epsi_start + t] = epsi1 - (psi0 - psides0 - v0 * delta0 / Lf() * dt)`
(MPC.cpp line 172), where `psides0 = atan(fdiff0)` with `fdiff0` the
derivative loop of lines 151-153. -/
def epsiResidual {R : Type} [Field R] (atanF : R → R) (coeffs : List R) (p : Params R)
    (idx : Indexes) (vars : ℕ → R) (t : ℕ) : R :=
  vars (idx.epsi_start + t) -
    (vars (idx.psi_start + t - 1) -
      atanF (polyeval_diff coeffs (vars (idx.x_start + t - 1))) -
      vars (idx.v_start + t - 1) * vars (idx.delta_start + t - 1) / Lf R * p.dt)

/-- The constraint entry `fg[1 + j]` written by `FG_eval::operator()`
(MPC.cpp lines 119-173).  The source writes row by row: for each of the five
state trajectories, entry `1 + s_start` is pinned to `vars[s_start]` (lines
119-123) and entries `1 + s_start + t` for `t = 1 .. N-1` hold the dynamics
residuals (lines 126-173).  With the offsets of `mkIndexes` the five rows
`[x_start, y_start), …, [epsi_start, delta_start)` are contiguous and
disjoint, so the written array is equivalently this decode by row; indices
`j ≥ delta_start` lie beyond the constraint array and are never written. -/
def FG_constraint {R : Type} [Field R] (cosF sinF atanF : R → R) (coeffs : List R)
    (p : Params R) (idx : Indexes) (vars : ℕ → R) (j : ℕ) : R :=
  if j < idx.y_start then
    if j = idx.x_start then vars idx.x_start else xResidual cosF p idx vars (j - idx.x_start)
  else if j < idx.psi_start then
    if j = idx.y_start then vars idx.y_start else yResidual sinF p idx vars (j - idx.y_start)
  else if j < idx.cte_start then
    if j = idx.psi_start then vars idx.psi_start else psiResidual p idx vars (j - idx.psi_start)
  else if j < idx.epsi_start then
    if j = idx.cte_start then vars idx.cte_start
    else cteResidual sinF coeffs p idx vars (j - idx.cte_start)
  else if j < idx.delta_start then
    if j = idx.epsi_start then vars idx.epsi_start
    else epsiResidual atanF coeffs p idx vars (j - idx.epsi_start)
  else 0

/-- The full `fg` vector computed by `FG_eval::operator()`: the cost at
index `0`, then the `5 N` constraint entries shifted by one. -/
def FG_eval_fg {R : Type} [Field R] (cosF sinF atanF : R → R) (coeffs : List R)
    (p : Params R) (idx : Indexes) (ref_v : R) (vars : ℕ → R) (k : ℕ) : R :=
  if k = 0 then FG_cost p idx ref_v vars
  else FG_constraint cosF sinF atanF coeffs p idx vars (k - 1)

/-- `vars_lowerbound` of `MPC::Solve` (MPC.cpp lines 220-234): `-1.0e19` for
the state variables, `-0.017453 * delta_constraint()` for the steering
variables, `0.0` for the speed variables. -/
def vars_lowerbound (idx : Indexes) (i : ℕ) : ℚ :=
  if i < idx.delta_start then -1e19
  else if i < idx.v_start then -0.017453 * delta_constraint
  else 0

/-- `vars_upperbound` of `MPC::Solve` (MPC.cpp lines 220-234): `1.0e19` for
the state variables, `0.017453 * delta_constraint()` for the steering
variables, `SPEED_UPPERBOUND` (the parameter `speed_ub`) for the speed
variables. -/
def vars_upperbound (idx : Indexes) (speed_ub : ℚ) (i : ℕ) : ℚ :=
  if i < idx.delta_start then 1e19
  else if i < idx.v_start then 0.017453 * delta_constraint
  else speed_ub

/-- `constraints_lowerbound` of `MPC::Solve` (MPC.cpp lines 239-250): all
entries zero, then the five positions `x_start`,
`y_start`, `psi_start`, `cte_start`, `epsi_start` overwritten with the
unpacked state values, in that order. -/
def constraints_lowerbound (idx : Indexes) (x y psi cte epsi : ℚ) : ℕ → ℚ :=
  Function.update (Function.update (Function.update (Function.update (Function.update
    (fun _ => (0 : ℚ)) idx.x_start x) idx.y_start y) idx.psi_start psi)
    idx.cte_start cte) idx.epsi_start epsi

/-- `constraints_upperbound` of `MPC::Solve` (MPC.cpp lines 240-256): built
by the same writes as the lower bound. -/
def constraints_upperbound (idx : Indexes) (x y psi cte epsi : ℚ) : ℕ → ℚ :=
  Function.update (Function.update (Function.update (Function.update (Function.update
    (fun _ => (0 : ℚ)) idx.x_start x) idx.y_start y) idx.psi_start psi)
    idx.cte_start cte) idx.epsi_start epsi

/-- The constraint lower bound built by `MPC::Solve` from its `state`
argument (MPC.cpp lines 202-206 unpack `state[0] .. state[4]` as
`x, y, psi, cte, epsi`; lines 246-250 store them). -/
def MPC.solveConstraintsLowerbound (N : ℕ) (state : List ℚ) : ℕ → ℚ :=
  constraints_lowerbound (mkIndexes N)
    (state.getD 0 0) (state.getD 1 0) (state.getD 2 0) (state.getD 3 0) (state.getD 4 0)

/-- The constraint upper bound built by `MPC::Solve` from its `state`
argument (MPC.cpp lines 202-206 and 252-256). -/
def MPC.solveConstraintsUpperbound (N : ℕ) (state : List ℚ) : ℕ → ℚ :=
  constraints_upperbound (mkIndexes N)
    (state.getD 0 0) (state.getD 1 0) (state.getD 2 0) (state.getD 3 0) (state.getD 4 0)

/-- The result vector built by `MPC::Solve` (MPC.cpp lines 295-303):
`push_back(solution.x[delta_start])`, `push_back(solution.x[v_start])`, then
for `i = 0 .. N-1` push `solution.x[x_start+i]` and `solution.x[y_start+i]`. -/
def MPC.extractResult (N : ℕ) (idx : Indexes) (sol : ℕ → ℚ) : List ℚ :=
  (List.range N).foldl
    (fun acc i => acc ++ [sol (idx.x_start + i), sol (idx.y_start + i)])
    [sol idx.delta_start, sol idx.v_start]

/-- The status values reported by `CppAD::ipopt::solve_result` (the enum of
`cppad/ipopt/solve_result.hpp`, an external dependency). -/
inductive IpoptStatus where
  | not_defined
  | success
  | maxiter_exceeded
  | stop_at_tiny_step
  | stop_at_acceptable_point
  | local_infeasibility
  | user_requested_stop
  | feasible_point_found
  | diverging_iterates
  | restoration_failure
  | error_in_step_computation
  | invalid_number_detected
  | too_few_degrees_of_freedom
  | internal_error
  | unknown
  deriving Repr, DecidableEq

/-- Everything `MPC::Solve` does with the solver outcome (MPC.cpp lines
286-303): the flag `ok = (solution.status == success)` that is only passed
to `ROS_WARN`, and the returned `std::vector<double>`. -/
structure SolveOutput where
  log_ok : Bool
  result : List ℚ

/-- The tail of `MPC::Solve` after `CppAD::ipopt::solve` has filled
`solution` with status `status` and decision values `sol` (MPC.cpp lines
286-303).  The return value is `result`; `log_ok` is only logged. -/
def MPC.solveReturn (N : ℕ) (status : IpoptStatus) (sol : ℕ → ℚ) : SolveOutput :=
  { log_ok := decide (status = IpoptStatus.success)
    result := MPC.extractResult N (mkIndexes N) sol }

/-- The seven trajectory offset ranges inside the decision-variable array:
five state ranges of length `N` and two actuation ranges of length `N-1`. -/
def offsetRanges (N : ℕ) : List (Finset ℕ) :=
  [Finset.Ico (mkIndexes N).x_start ((mkIndexes N).x_start + N),
   Finset.Ico (mkIndexes N).y_start ((mkIndexes N).y_start + N),
   Finset.Ico (mkIndexes N).psi_start ((mkIndexes N).psi_start + N),
   Finset.Ico (mkIndexes N).cte_start ((mkIndexes N).cte_start + N),
   Finset.Ico (mkIndexes N).epsi_start ((mkIndexes N).epsi_start + N),
   Finset.Ico (mkIndexes N).delta_start ((mkIndexes N).delta_start + (N - 1)),
   Finset.Ico (mkIndexes N).v_start ((mkIndexes N).v_start + (N - 1))]

/-- C5: for every horizon `N ≥ 2` the constructor's offsets satisfy
`x_start = 0`, `y_start = x_start + N`, …, `v_start = delta_start + (N-1)`;
the seven offset ranges are pairwise disjoint, their union is exactly
`[0, 5N + 2(N-1))`, that total equals the `n_vars` used by `Solve`, and the
number of constraint residuals is `5N`. -/
theorem indexer_offsets_partition (N : ℕ) (hN : 2 ≤ N) :
    (mkIndexes N).x_start = 0 ∧
    (mkIndexes N).y_start = (mkIndexes N).x_start + N ∧
    (mkIndexes N).psi_start = (mkIndexes N).y_start + N ∧
    (mkIndexes N).cte_start = (mkIndexes N).psi_start + N ∧
    (mkIndexes N).epsi_start = (mkIndexes N).cte_start + N ∧
    (mkIndexes N).delta_start = (mkIndexes N).epsi_start + N ∧
    (mkIndexes N).v_start = (mkIndexes N).delta_start + (N - 1) ∧
    (offsetRanges N).Pairwise Disjoint ∧
    (offsetRanges N).foldr (· ∪ ·) ∅ = Finset.range (5 * N + 2 * (N - 1)) ∧
    5 * N + 2 * (N - 1) = n_vars N ∧
    n_constraints N = 5 * N := by
  have hd : ∀ a b c d : ℕ, b ≤ c → Disjoint (Finset.Ico a b) (Finset.Ico c d) := by
    intro a b c d h
    rw [Finset.disjoint_left]
    intro k hk hk'
    rw [Finset.mem_Ico] at hk hk'
    omega
  refine ⟨rfl, rfl, rfl, rfl, rfl, rfl, ?_, ?_, ?_, ?_, ?_⟩
  · simp only [mkIndexes_v_start, mkIndexes_delta_start]
    omega
  · simp only [offsetRanges, List.pairwise_cons, List.forall_mem_cons,
      List.Pairwise.nil, mkIndexes_x_start, mkIndexes_y_start,
      mkIndexes_psi_start, mkIndexes_cte_start, mkIndexes_epsi_start,
      mkIndexes_delta_start, mkIndexes_v_start, and_true]
    and_intros <;> first
      | (apply hd; omega)
      | (exact fun x hx => absurd hx (List.not_mem_nil x))
  · ext k
    simp only [offsetRanges, List.foldr_cons, List.foldr_nil, Finset.union_empty,
      Finset.mem_union, Finset.mem_Ico, Finset.mem_range, mkIndexes_x_start,
      mkIndexes_y_start, mkIndexes_psi_start, mkIndexes_cte_start,
      mkIndexes_epsi_start, mkIndexes_delta_start, mkIndexes_v_start]
    omega
  · rw [n_vars]
    omega
  · rw [n_constraints]
    omega

/-- Witness for C5 at the concrete horizon `N = 3`. -/
theorem indexer_offsets_partition_witness :
    2 ≤ 3 ∧ (offsetRanges 3).foldr (· ∪ ·) ∅ = Finset.range (5 * 3 + 2 * (3 - 1)) :=
  ⟨by decide, ((indexer_offsets_partition 3 (by decide)).2.2.2.2.2.2.2.2).1⟩

/-- The polynomial with coefficient list `coeffs` (lowest degree first),
used to state that `polyeval_diff` is the formal derivative of the
polynomial evaluated by `polyeval`. -/
noncomputable def coeffsPoly (coeffs : List ℚ) : Polynomial ℚ :=
  ∑ i in Finset.range coeffs.length, Polynomial.C (coeffs.getD i 0) * Polynomial.X ^ i

theorem coeffsPoly_eval (coeffs : List ℚ) (x : ℚ) :
    (coeffsPoly coeffs).eval x = ∑ i in Finset.range coeffs.length, coeffs.getD i 0 * x ^ i := by
  simp [coeffsPoly, Polynomial.eval_finset_sum]

theorem coeffsPoly_derivative_eval (coeffs : List ℚ) (x : ℚ) :
    (Polynomial.derivative (coeffsPoly coeffs)).eval x =
      ∑ i in Finset.range coeffs.length, (i : ℚ) * coeffs.getD i 0 * x ^ (i - 1) := by
  rw [coeffsPoly, map_sum, Polynomial.eval_finset_sum]
  refine Finset.sum_congr rfl fun i _ => ?_
  rw [Polynomial.derivative_C_mul, Polynomial.derivative_X_pow]
  simp only [Polynomial.eval_mul, Polynomial.eval_C, Polynomial.eval_pow, Polynomial.eval_X]
  ring

/-- C10: over exact arithmetic `polyeval coeffs x = Σ_i coeffs[i]·xⁱ`,
`polyeval_diff coeffs x = Σ_{i≥1} i·coeffs[i]·x^(i-1)`, and `polyeval_diff`
is exactly the formal derivative of the polynomial evaluated by `polyeval`. -/
theorem polyeval_diff_is_derivative (coeffs : List ℚ) (x : ℚ) :
    polyeval coeffs x = ∑ i in Finset.range coeffs.length, coeffs.getD i 0 * x ^ i ∧
    polyeval_diff coeffs x =
      ∑ i in Finset.Ico 1 coeffs.length, (i : ℚ) * coeffs.getD i 0 * x ^ (i - 1) ∧
    polyeval coeffs x = (coeffsPoly coeffs).eval x ∧
    polyeval_diff coeffs x = (Polynomial.derivative (coeffsPoly coeffs)).eval x := by
  refine ⟨polyeval_eq_sum coeffs x, polyeval_diff_eq_sum coeffs x, ?_, ?_⟩
  · rw [polyeval_eq_sum, coeffsPoly_eval]
  · rw [polyeval_diff_eq_sum, coeffsPoly_derivative_eval, Finset.range_eq_Ico]
    rcases Nat.eq_zero_or_pos coeffs.length with h | h
    · rw [h]
      simp
    · rw [Finset.sum_eq_sum_Ico_succ_bot h]
      norm_num

theorem buildA_pow (xs : List ℚ) (j i : ℕ) : buildA xs j i = xs.getD j 0 ^ i := by
  induction i with
  | zero => rfl
  | succ i ih => rw [pow_succ, ← ih]; rfl

/-- C9: `polyfit` checks `len(xs) == len(ys)` and `1 ≤ order ≤ len(xs) - 1`
(equivalently `len ≥ order + 1`), failing the assertion otherwise, and on
success hands the external QR solver the Vandermonde design matrix whose
column `i` is `x^i`. -/
theorem polyfit_guard_vandermonde (qr : (ℕ → ℕ → ℚ) → List ℚ → List ℚ)
    (xs ys : List ℚ) (order : ℤ) :
    polyfit qr xs ys order =
      (if xs.length = ys.length ∧ 1 ≤ order ∧ order + 1 ≤ (xs.length : ℤ) then
        some (qr (fun j i => xs.getD j 0 ^ i) ys) else none) ∧
    ((polyfit qr xs ys order).isSome ↔
      xs.length = ys.length ∧ 1 ≤ order ∧ order + 1 ≤ (xs.length : ℤ)) := by
  have hA : (fun j i => buildA xs j i) = fun (j i : ℕ) => xs.getD j 0 ^ i := by
    funext j i
    exact buildA_pow xs j i
  have hmain : polyfit qr xs ys order =
      (if xs.length = ys.length ∧ 1 ≤ order ∧ order + 1 ≤ (xs.length : ℤ) then
        some (qr (fun j i => xs.getD j 0 ^ i) ys) else none) := by
    rw [polyfit]
    split_ifs with h1 h2 h3
    · rw [hA]
    · exact absurd ⟨h1.1, h1.2.1, by omega⟩ h2
    · exact absurd ⟨h3.1, h3.2.1, by omega⟩ h1
    · rfl
  refine ⟨hmain, ?_⟩
  rw [hmain]
  split_ifs with h
  · simpa using h
  · simpa using h

/-- Concrete `Params` with a degenerate horizon `N = 1` and an admissible
target speed (the remaining weights are those of
`run_mpc_cpp_with_debug.sh`). -/
def degenerateParams : Params ℚ :=
  { steps_ahead := 1, dt := 0.05, ref_v := 0, cte_coeff := 100, epsi_coeff := 100,
    speed_coeff := 2, steer_coeff := 2, consec_steer_coeff := 1000, consec_speed_coeff := 5 }

/-- C8 counterexample: the constructor accepts `Params` with horizon
`N = 1 < 2` — its only check is the `assert` on `ref_v`, so a degenerate
horizon is not rejected at configuration time. -/
theorem construct_accepts_degenerate_horizon :
    degenerateParams.steps_ahead < 2 ∧ (MPC.construct degenerateParams 1).isSome = true := by
  constructor
  · decide
  · rfl

/-- C8 amended: construction fails exactly when `ref_v ≥ SPEED_UPPERBOUND`
(the assert at MPC.cpp line 193); the horizon is not validated, so `N < 2`
is accepted. -/
theorem construct_rejects_exactly_fast_ref_v (p : Params ℚ) (speed_ub : ℚ) :
    MPC.construct p speed_ub = none ↔ speed_ub ≤ p.ref_v := by
  rw [MPC.construct]
  split_ifs with h
  · exact iff_of_false (by simp) (not_le.mpr h)
  · exact iff_of_true rfl (not_lt.mp h)

/-- C1 counterexample: at a non-success solver status the vector returned to
the caller is identical to the one returned at success — the returned value
carries no non-convergence tag; the `ok` flag is only printed by `ROS_WARN`
(MPC.cpp line 291). -/
theorem solve_return_not_tagged :
    (MPC.solveReturn 2 IpoptStatus.maxiter_exceeded (fun i => (i : ℚ))).result =
      (MPC.solveReturn 2 IpoptStatus.success (fun i => (i : ℚ))).result ∧
    (MPC.solveReturn 2 IpoptStatus.maxiter_exceeded (fun i => (i : ℚ))).log_ok = false :=
  ⟨rfl, rfl⟩

/-- C1 amended: on any solver status — success or not — `MPC::Solve` still
returns the best-effort extracted result and never fails; but non-convergence
is only recorded in the logged `ok` flag, not in the returned value. -/
theorem solve_best_effort_logged_only (N : ℕ) (status : IpoptStatus) (sol : ℕ → ℚ) :
    (MPC.solveReturn N status sol).result = MPC.extractResult N (mkIndexes N) sol ∧
    ((MPC.solveReturn N status sol).log_ok = true ↔ status = IpoptStatus.success) := by
  refine ⟨rfl, ?_⟩
  simp [MPC.solveReturn]

/-- Folding `++ f i` over a list prepends the initial segment to the
flattened mapped lists. -/
theorem foldl_append_eq {α : Type} (f : ℕ → List α) (l : List ℕ) (init : List α) :
    l.foldl (fun acc i => acc ++ f i) init = init ++ (l.map f).flatten := by
  induction l generalizing init with
  | nil => simp
  | cons a l ih => simp [ih]

/-- Element access into a flattened list of two-element blocks. -/
theorem flatten_pairs_getD {α : Type} (F G : ℕ → α) (d : α) (l : List ℕ) :
    ∀ t : ℕ, t < l.length →
      ((l.map fun i => [F i, G i]).flatten.getD (2 * t) d = F (l.getD t 0) ∧
       (l.map fun i => [F i, G i]).flatten.getD (2 * t + 1) d = G (l.getD t 0)) := by
  induction l with
  | nil =>
      intro t ht
      simp at ht
  | cons b l ih =>
      intro t ht
      cases t with
      | zero => simp
      | succ t =>
          have ht' : t < l.length := by simpa using ht
          have ih' := ih t ht'
          have e1 : 2 * (t + 1) = 2 * t + 1 + 1 := by ring
          rw [e1]
          simp only [List.map_cons, List.flatten_cons, List.cons_append,
            List.nil_append, List.getD_cons_succ]
          exact ih'

/-- The total length of a flattened list of two-element blocks. -/
theorem sum_lengths_pairs {α : Type} (F G : ℕ → α) (l : List ℕ) :
    ((l.map fun i => ([F i, G i] : List α)).map List.length).sum = 2 * l.length := by
  induction l with
  | nil => simp
  | cons a l ih =>
      simp only [List.map_cons, List.sum_cons, ih, List.length_cons, List.length_nil]
      omega

/-- C7: the vector built by `MPC::Solve` has length `2 + 2N` and holds, in
order, `solution.x[delta_start]`, `solution.x[v_start]`, then the pairs
`(solution.x[x_start+t], solution.x[y_start+t])` for `t = 0 .. N-1`. -/
theorem solve_extract_layout (N : ℕ) (sol : ℕ → ℚ) :
    (MPC.extractResult N (mkIndexes N) sol).length = 2 + 2 * N ∧
    (MPC.extractResult N (mkIndexes N) sol).getD 0 0 = sol (mkIndexes N).delta_start ∧
    (MPC.extractResult N (mkIndexes N) sol).getD 1 0 = sol (mkIndexes N).v_start ∧
    ∀ t : ℕ, t < N →
      (MPC.extractResult N (mkIndexes N) sol).getD (2 + 2 * t) 0 =
        sol ((mkIndexes N).x_start + t) ∧
      (MPC.extractResult N (mkIndexes N) sol).getD (2 + 2 * t + 1) 0 =
        sol ((mkIndexes N).y_start + t) := by
  have hrw : MPC.extractResult N (mkIndexes N) sol =
      [sol (mkIndexes N).delta_start, sol (mkIndexes N).v_start] ++
        ((List.range N).map fun i =>
          [sol ((mkIndexes N).x_start + i), sol ((mkIndexes N).y_start + i)]).flatten := by
    rw [MPC.extractResult,
      foldl_append_eq (fun i => [sol ((mkIndexes N).x_start + i), sol ((mkIndexes N).y_start + i)])]
  refine ⟨?_, ?_, ?_, ?_⟩
  · rw [hrw, List.length_append, List.length_flatten,
      sum_lengths_pairs (fun i => sol ((mkIndexes N).x_start + i))
        (fun i => sol ((mkIndexes N).y_start + i)) (List.range N)]
    simp
  · rw [hrw]
    rfl
  · rw [hrw]
    rfl
  · intro t ht
    have hr : (List.range N).getD t 0 = t := by
      rw [List.getD_eq_getElem?_getD, List.getElem?_range ht]
      rfl
    have hj := flatten_pairs_getD (fun i => sol ((mkIndexes N).x_start + i))
      (fun i => sol ((mkIndexes N).y_start + i)) 0 (List.range N) t (by simpa using ht)
    rw [hr] at hj
    constructor
    · rw [hrw, show 2 + 2 * t = 2 * t + 1 + 1 by ring]
      simp only [List.cons_append, List.nil_append, List.getD_cons_succ]
      exact hj.1
    · rw [hrw, show 2 + 2 * t + 1 = 2 * t + 1 + 1 + 1 by ring]
      simp only [List.cons_append, List.nil_append, List.getD_cons_succ]
      exact hj.2

/-- Witness for C7 at `N = 2`, `sol i = i`, checking the length clause and
the trajectory pair at `t = 1`. -/
theorem solve_extract_layout_witness :
    (1 : ℕ) < 2 ∧
    (MPC.extractResult 2 (mkIndexes 2) (fun i => (i : ℚ))).length = 2 + 2 * 2 ∧
    (MPC.extractResult 2 (mkIndexes 2) (fun i => (i : ℚ))).getD (2 + 2 * 1) 0 =
      ((mkIndexes 2).x_start + 1 : ℕ) :=
  ⟨by decide, (solve_extract_layout 2 (fun i => (i : ℚ))).1,
    ((solve_extract_layout 2 (fun i => (i : ℚ))).2.2.2 1 (by decide)).1⟩

/-- Folding two added terms per step equals the initial value plus the sum
of the per-step contributions. -/
theorem foldl_add2 {M : Type} [AddCommMonoid M] (g h : ℕ → M) (l : List ℕ) (init : M) :
    l.foldl (fun acc t => acc + g t + h t) init = init + (l.map fun t => g t + h t).sum := by
  induction l generalizing init with
  | nil => simp
  | cons a l ih =>
      rw [show List.foldl (fun acc t => acc + g t + h t) init (a :: l) =
          List.foldl (fun acc t => acc + g t + h t) (init + g a + h a) l from rfl,
        ih, List.map_cons, List.sum_cons]
      abel

/-- C3: the scalar cost `fg[0]` is the weighted sum of squared cross-track
and heading errors over `t = 0 .. N-1`, plus speed-tracking and steering
penalties over `t = 0 .. N-2`, plus consecutive-actuation gap penalties over
`t = 0 .. N-3`, with exactly these index ranges. -/
theorem cost_terms_and_ranges {R : Type} [Field R] (cosF sinF atanF : R → R)
    (coeffs : List R) (p : Params R) (ref_v : R) (vars : ℕ → R)
    (hN : 2 ≤ p.steps_ahead) :
    FG_eval_fg cosF sinF atanF coeffs p (mkIndexes p.steps_ahead) ref_v vars 0 =
      (∑ t in Finset.range p.steps_ahead,
        (p.cte_coeff * vars ((mkIndexes p.steps_ahead).cte_start + t) ^ 2 +
         p.epsi_coeff * vars ((mkIndexes p.steps_ahead).epsi_start + t) ^ 2)) +
      (∑ t in Finset.range (p.steps_ahead - 1),
        (p.speed_coeff * (vars ((mkIndexes p.steps_ahead).v_start + t) - ref_v) ^ 2 +
         p.steer_coeff * vars ((mkIndexes p.steps_ahead).delta_start + t) ^ 2)) +
      (∑ t in Finset.range (p.steps_ahead - 2),
        (p.consec_steer_coeff *
            (vars ((mkIndexes p.steps_ahead).delta_start + t + 1) -
             vars ((mkIndexes p.steps_ahead).delta_start + t)) ^ 2 +
         p.consec_speed_coeff *
            (vars ((mkIndexes p.steps_ahead).v_start + t + 1) -
             vars ((mkIndexes p.steps_ahead).v_start + t)) ^ 2)) := by
  have h0 : FG_eval_fg cosF sinF atanF coeffs p (mkIndexes p.steps_ahead) ref_v vars 0 =
      FG_cost p (mkIndexes p.steps_ahead) ref_v vars := rfl
  rw [h0]
  simp only [FG_cost]
  rw [foldl_add2, foldl_add2, foldl_add2, sum_map_range, sum_map_range, sum_map_range, zero_add]

/-- Concrete `Params` used by the witnesses (horizon 2, weights of
`run_mpc_cpp_with_debug.sh`). -/
def exampleParams : Params ℚ :=
  { steps_ahead := 2, dt := 0.05, ref_v := 10, cte_coeff := 100, epsi_coeff := 100,
    speed_coeff := 2, steer_coeff := 2, consec_steer_coeff := 1000, consec_speed_coeff := 5 }

/-- Witness for C3 at horizon 2 over `ℚ` with `vars i = i`. -/
theorem cost_terms_and_ranges_witness :
    2 ≤ exampleParams.steps_ahead ∧
    FG_eval_fg id id id ([] : List ℚ) exampleParams (mkIndexes exampleParams.steps_ahead) 1
        (fun i => (i : ℚ)) 0 =
      (∑ t in Finset.range exampleParams.steps_ahead,
        (exampleParams.cte_coeff *
            (((mkIndexes exampleParams.steps_ahead).cte_start + t : ℕ) : ℚ) ^ 2 +
         exampleParams.epsi_coeff *
            (((mkIndexes exampleParams.steps_ahead).epsi_start + t : ℕ) : ℚ) ^ 2)) +
      (∑ t in Finset.range (exampleParams.steps_ahead - 1),
        (exampleParams.speed_coeff *
            ((((mkIndexes exampleParams.steps_ahead).v_start + t : ℕ) : ℚ) - 1) ^ 2 +
         exampleParams.steer_coeff *
            (((mkIndexes exampleParams.steps_ahead).delta_start + t : ℕ) : ℚ) ^ 2)) +
      (∑ t in Finset.range (exampleParams.steps_ahead - 2),
        (exampleParams.consec_steer_coeff *
            ((((mkIndexes exampleParams.steps_ahead).delta_start + t + 1 : ℕ) : ℚ) -
             (((mkIndexes exampleParams.steps_ahead).delta_start + t : ℕ) : ℚ)) ^ 2 +
         exampleParams.consec_speed_coeff *
            ((((mkIndexes exampleParams.steps_ahead).v_start + t + 1 : ℕ) : ℚ) -
             (((mkIndexes exampleParams.steps_ahead).v_start + t : ℕ) : ℚ)) ^ 2)) :=
  ⟨by decide,
    cost_terms_and_ranges id id id ([] : List ℚ) exampleParams 1 (fun i => (i : ℚ)) (by decide)⟩

/-- The steering bound in radians: `0.017453 * delta_constraint()` (one
degree in radians times the 25-degree limit). -/
def max_steering_angle : ℚ := 0.017453 * delta_constraint

/-- The two constraint-bound arrays are built by identical writes. -/
theorem constraints_upperbound_eq_lowerbound :
    constraints_upperbound = constraints_lowerbound := rfl

theorem constraints_lowerbound_pins (N : ℕ) (hN : 2 ≤ N) (x y psi cte epsi : ℚ) :
    constraints_lowerbound (mkIndexes N) x y psi cte epsi (mkIndexes N).x_start = x ∧
    constraints_lowerbound (mkIndexes N) x y psi cte epsi (mkIndexes N).y_start = y ∧
    constraints_lowerbound (mkIndexes N) x y psi cte epsi (mkIndexes N).psi_start = psi ∧
    constraints_lowerbound (mkIndexes N) x y psi cte epsi (mkIndexes N).cte_start = cte ∧
    constraints_lowerbound (mkIndexes N) x y psi cte epsi (mkIndexes N).epsi_start = epsi := by
  unfold constraints_lowerbound
  refine ⟨?_, ?_, ?_, ?_, ?_⟩ <;>
    simp only [Function.update_apply, mkIndexes_x_start, mkIndexes_y_start,
      mkIndexes_psi_start, mkIndexes_cte_start, mkIndexes_epsi_start] <;>
    split_ifs <;> first | rfl | omega

theorem constraints_lowerbound_zero (N : ℕ) (x y psi cte epsi : ℚ) (j : ℕ)
    (h1 : j ≠ (mkIndexes N).x_start) (h2 : j ≠ (mkIndexes N).y_start)
    (h3 : j ≠ (mkIndexes N).psi_start) (h4 : j ≠ (mkIndexes N).cte_start)
    (h5 : j ≠ (mkIndexes N).epsi_start) :
    constraints_lowerbound (mkIndexes N) x y psi cte epsi j = 0 := by
  unfold constraints_lowerbound
  rw [Function.update_apply, if_neg h5, Function.update_apply, if_neg h4,
    Function.update_apply, if_neg h3, Function.update_apply, if_neg h2,
    Function.update_apply, if_neg h1]

/-- C6: the variable bounds are `±1e19` for state variables,
`±max_steering_angle` for steering variables, `[0, SPEED_UPPERBOUND]` for
speed variables; every constraint bound is `[0,0]` except the five
initial-state rows, whose lower and upper bounds both equal the
corresponding entry of the input state. -/
theorem solve_bounds (N : ℕ) (hN : 2 ≤ N) (speed_ub x y psi cte epsi : ℚ) :
    (∀ i : ℕ, i < (mkIndexes N).delta_start →
      vars_lowerbound (mkIndexes N) i = -1e19 ∧
      vars_upperbound (mkIndexes N) speed_ub i = 1e19) ∧
    (∀ i : ℕ, (mkIndexes N).delta_start ≤ i → i < (mkIndexes N).v_start →
      vars_lowerbound (mkIndexes N) i = -max_steering_angle ∧
      vars_upperbound (mkIndexes N) speed_ub i = max_steering_angle) ∧
    (∀ i : ℕ, (mkIndexes N).v_start ≤ i → i < n_vars N →
      vars_lowerbound (mkIndexes N) i = 0 ∧
      vars_upperbound (mkIndexes N) speed_ub i = speed_ub) ∧
    (∀ j : ℕ, j < n_constraints N →
      j ≠ (mkIndexes N).x_start → j ≠ (mkIndexes N).y_start →
      j ≠ (mkIndexes N).psi_start → j ≠ (mkIndexes N).cte_start →
      j ≠ (mkIndexes N).epsi_start →
      constraints_lowerbound (mkIndexes N) x y psi cte epsi j = 0 ∧
      constraints_upperbound (mkIndexes N) x y psi cte epsi j = 0) ∧
    constraints_lowerbound (mkIndexes N) x y psi cte epsi (mkIndexes N).x_start = x ∧
    constraints_upperbound (mkIndexes N) x y psi cte epsi (mkIndexes N).x_start = x ∧
    constraints_lowerbound (mkIndexes N) x y psi cte epsi (mkIndexes N).y_start = y ∧
    constraints_upperbound (mkIndexes N) x y psi cte epsi (mkIndexes N).y_start = y ∧
    constraints_lowerbound (mkIndexes N) x y psi cte epsi (mkIndexes N).psi_start = psi ∧
    constraints_upperbound (mkIndexes N) x y psi cte epsi (mkIndexes N).psi_start = psi ∧
    constraints_lowerbound (mkIndexes N) x y psi cte epsi (mkIndexes N).cte_start = cte ∧
    constraints_upperbound (mkIndexes N) x y psi cte epsi (mkIndexes N).cte_start = cte ∧
    constraints_lowerbound (mkIndexes N) x y psi cte epsi (mkIndexes N).epsi_start = epsi ∧
    constraints_upperbound (mkIndexes N) x y psi cte epsi (mkIndexes N).epsi_start = epsi := by
  have hpins := constraints_lowerbound_pins N hN x y psi cte epsi
  refine ⟨?_, ?_, ?_, ?_, hpins.1, ?_, hpins.2.1, ?_, hpins.2.2.1, ?_, hpins.2.2.2.1, ?_,
      hpins.2.2.2.2, ?_⟩
  · intro i hi
    constructor
    · unfold vars_lowerbound
      rw [if_pos hi]
    · unfold vars_upperbound
      rw [if_pos hi]
  · intro i h1 h2
    constructor
    · unfold vars_lowerbound
      rw [if_neg (not_lt.mpr h1), if_pos h2, max_steering_angle]
      ring
    · unfold vars_upperbound
      rw [if_neg (not_lt.mpr h1), if_pos h2, max_steering_angle]
  · intro i h1 h2
    simp only [mkIndexes_v_start] at h1
    constructor
    · unfold vars_lowerbound
      simp only [mkIndexes_delta_start, mkIndexes_v_start]
      rw [if_neg (by omega), if_neg (by omega)]
    · unfold vars_upperbound
      simp only [mkIndexes_delta_start, mkIndexes_v_start]
      rw [if_neg (by omega), if_neg (by omega)]
  · intro j hj h1 h2 h3 h4 h5
    refine ⟨constraints_lowerbound_zero N x y psi cte epsi j h1 h2 h3 h4 h5, ?_⟩
    rw [constraints_upperbound_eq_lowerbound]
    exact constraints_lowerbound_zero N x y psi cte epsi j h1 h2 h3 h4 h5
  · rw [constraints_upperbound_eq_lowerbound]
    exact hpins.1
  · rw [constraints_upperbound_eq_lowerbound]
    exact hpins.2.1
  · rw [constraints_upperbound_eq_lowerbound]
    exact hpins.2.2.1
  · rw [constraints_upperbound_eq_lowerbound]
    exact hpins.2.2.2.1
  · rw [constraints_upperbound_eq_lowerbound]
    exact hpins.2.2.2.2

/-- Witness for C6 at `N = 2`: a steering index gets `-max_steering_angle`
as lower bound and the `cte` row is pinned to the fourth state entry. -/
theorem solve_bounds_witness :
    (mkIndexes 2).delta_start ≤ 10 ∧ 10 < (mkIndexes 2).v_start ∧
    vars_lowerbound (mkIndexes 2) 10 = -max_steering_angle ∧
    constraints_lowerbound (mkIndexes 2) 1 2 3 4 5 (mkIndexes 2).cte_start = 4 :=
  ⟨by decide, by decide,
    ((solve_bounds 2 (by decide) 7 1 2 3 4 5).2.1 10 (by decide) (by decide)).1,
    (solve_bounds 2 (by decide) 7 1 2 3 4 5).2.2.2.2.2.2.2.2.2.2.1⟩

/-- C4: `MPC::Solve` reads only the first five entries of its state vector,
interpreting them in order as `(x, y, psi, cte, epsi)` — in particular
`state[3]` is pinned as the initial cross-track error and `state[4]` as the
initial heading error — and the speed trajectory lies entirely outside the
constraint rows, so no initial-state constraint pins a speed. -/
theorem solve_state_reads (N : ℕ) (hN : 2 ≤ N) (state : List ℚ)
    (hlen : 5 ≤ state.length) :
    (∀ state2 : List ℚ, (∀ i : ℕ, i < 5 → state.getD i 0 = state2.getD i 0) →
      MPC.solveConstraintsLowerbound N state = MPC.solveConstraintsLowerbound N state2 ∧
      MPC.solveConstraintsUpperbound N state = MPC.solveConstraintsUpperbound N state2) ∧
    MPC.solveConstraintsLowerbound N state (mkIndexes N).x_start = state.getD 0 0 ∧
    MPC.solveConstraintsLowerbound N state (mkIndexes N).y_start = state.getD 1 0 ∧
    MPC.solveConstraintsLowerbound N state (mkIndexes N).psi_start = state.getD 2 0 ∧
    MPC.solveConstraintsLowerbound N state (mkIndexes N).cte_start = state.getD 3 0 ∧
    MPC.solveConstraintsLowerbound N state (mkIndexes N).epsi_start = state.getD 4 0 ∧
    MPC.solveConstraintsUpperbound N state (mkIndexes N).cte_start = state.getD 3 0 ∧
    MPC.solveConstraintsUpperbound N state (mkIndexes N).epsi_start = state.getD 4 0 ∧
    n_constraints N ≤ (mkIndexes N).v_start := by
  have hpins := constraints_lowerbound_pins N hN
    (state.getD 0 0) (state.getD 1 0) (state.getD 2 0) (state.getD 3 0) (state.getD 4 0)
  refine ⟨?_, hpins.1, hpins.2.1, hpins.2.2.1, hpins.2.2.2.1, hpins.2.2.2.2, ?_, ?_, ?_⟩
  · intro state2 h
    unfold MPC.solveConstraintsLowerbound MPC.solveConstraintsUpperbound
    rw [h 0 (by omega), h 1 (by omega), h 2 (by omega), h 3 (by omega), h 4 (by omega)]
    exact ⟨rfl, rfl⟩
  · unfold MPC.solveConstraintsUpperbound
    rw [constraints_upperbound_eq_lowerbound]
    exact hpins.2.2.2.1
  · unfold MPC.solveConstraintsUpperbound
    rw [constraints_upperbound_eq_lowerbound]
    exact hpins.2.2.2.2
  · unfold n_constraints
    simp only [mkIndexes_v_start]
    omega

/-- Witness for C4 with the six-entry state `[1, 2, 3, 4, 5, 6]` at `N = 2`:
the `cte` row is pinned to `state[3]` and the `epsi` row to `state[4]`. -/
theorem solve_state_reads_witness :
    5 ≤ ([1, 2, 3, 4, 5, 6] : List ℚ).length ∧
    MPC.solveConstraintsLowerbound 2 [1, 2, 3, 4, 5, 6] (mkIndexes 2).cte_start =
      ([1, 2, 3, 4, 5, 6] : List ℚ).getD 3 0 ∧
    MPC.solveConstraintsUpperbound 2 [1, 2, 3, 4, 5, 6] (mkIndexes 2).epsi_start =
      ([1, 2, 3, 4, 5, 6] : List ℚ).getD 4 0 :=
  ⟨by decide,
    (solve_state_reads 2 (by decide) [1, 2, 3, 4, 5, 6] (by decide)).2.2.2.2.1,
    (solve_state_reads 2 (by decide) [1, 2, 3, 4, 5, 6] (by decide)).2.2.2.2.2.2.2.1⟩

/-- `fg[1 + j]` is the `j`-th constraint entry. -/
theorem FG_eval_fg_succ {R : Type} [Field R] (cosF sinF atanF : R → R) (coeffs : List R)
    (p : Params R) (idx : Indexes) (ref_v : R) (vars : ℕ → R) (j : ℕ) :
    FG_eval_fg cosF sinF atanF coeffs p idx ref_v vars (1 + j) =
      FG_constraint cosF sinF atanF coeffs p idx vars j := by
  unfold FG_eval_fg
  rw [if_neg (by omega)]
  congr 1
  omega

/-- C2: for every `t = 1 .. N-1`, `FG_eval::operator()` writes the five
dynamics residuals `next_state_var − predicted_next_state` with the code's
sign conventions — `ψ` and `epsi` updated with `− v·δ/Lf·dt`,
`cte' = f(x) − y + v·sin(epsi)·dt`, and `psi_des = atan(f′(x))` for the
polynomial `f` of the captured coefficients. -/
theorem dynamics_residuals {R : Type} [Field R] (cosF sinF atanF : R → R)
    (coeffs : List R) (p : Params R) (ref_v : R) (vars : ℕ → R) (t : ℕ)
    (hN : 2 ≤ p.steps_ahead) (ht1 : 1 ≤ t) (ht2 : t < p.steps_ahead) :
    (FG_eval_fg cosF sinF atanF coeffs p (mkIndexes p.steps_ahead) ref_v vars
        (1 + (mkIndexes p.steps_ahead).x_start + t) =
      vars ((mkIndexes p.steps_ahead).x_start + t) -
        (vars ((mkIndexes p.steps_ahead).x_start + (t - 1)) +
          vars ((mkIndexes p.steps_ahead).v_start + (t - 1)) *
            cosF (vars ((mkIndexes p.steps_ahead).psi_start + (t - 1))) * p.dt)) ∧
    (FG_eval_fg cosF sinF atanF coeffs p (mkIndexes p.steps_ahead) ref_v vars
        (1 + (mkIndexes p.steps_ahead).y_start + t) =
      vars ((mkIndexes p.steps_ahead).y_start + t) -
        (vars ((mkIndexes p.steps_ahead).y_start + (t - 1)) +
          vars ((mkIndexes p.steps_ahead).v_start + (t - 1)) *
            sinF (vars ((mkIndexes p.steps_ahead).psi_start + (t - 1))) * p.dt)) ∧
    (FG_eval_fg cosF sinF atanF coeffs p (mkIndexes p.steps_ahead) ref_v vars
        (1 + (mkIndexes p.steps_ahead).psi_start + t) =
      vars ((mkIndexes p.steps_ahead).psi_start + t) -
        (vars ((mkIndexes p.steps_ahead).psi_start + (t - 1)) -
          vars ((mkIndexes p.steps_ahead).v_start + (t - 1)) *
            vars ((mkIndexes p.steps_ahead).delta_start + (t - 1)) / Lf R * p.dt)) ∧
    (FG_eval_fg cosF sinF atanF coeffs p (mkIndexes p.steps_ahead) ref_v vars
        (1 + (mkIndexes p.steps_ahead).cte_start + t) =
      vars ((mkIndexes p.steps_ahead).cte_start + t) -
        ((∑ i in Finset.range coeffs.length,
            coeffs.getD i 0 * vars ((mkIndexes p.steps_ahead).x_start + (t - 1)) ^ i) -
          vars ((mkIndexes p.steps_ahead).y_start + (t - 1)) +
          vars ((mkIndexes p.steps_ahead).v_start + (t - 1)) *
            sinF (vars ((mkIndexes p.steps_ahead).epsi_start + (t - 1))) * p.dt)) ∧
    (FG_eval_fg cosF sinF atanF coeffs p (mkIndexes p.steps_ahead) ref_v vars
        (1 + (mkIndexes p.steps_ahead).epsi_start + t) =
      vars ((mkIndexes p.steps_ahead).epsi_start + t) -
        (vars ((mkIndexes p.steps_ahead).psi_start + (t - 1)) -
          atanF (∑ i in Finset.Ico 1 coeffs.length,
            (i : R) * coeffs.getD i 0 * vars ((mkIndexes p.steps_ahead).x_start + (t - 1)) ^ (i - 1)) -
          vars ((mkIndexes p.steps_ahead).v_start + (t - 1)) *
            vars ((mkIndexes p.steps_ahead).delta_start + (t - 1)) / Lf R * p.dt)) := by
  have haux : ∀ a : ℕ, a + t - 1 = a + (t - 1) := fun a => by omega
  refine ⟨?_, ?_, ?_, ?_, ?_⟩
  · rw [show 1 + (mkIndexes p.steps_ahead).x_start + t
        = 1 + ((mkIndexes p.steps_ahead).x_start + t) from by omega, FG_eval_fg_succ]
    simp only [FG_constraint, mkIndexes_x_start, mkIndexes_y_start, mkIndexes_psi_start,
      mkIndexes_cte_start, mkIndexes_epsi_start, mkIndexes_delta_start, mkIndexes_v_start,
      zero_add, Nat.sub_zero, Nat.add_sub_cancel_left]
    rw [if_pos (show t < p.steps_ahead from ht2), if_neg (show ¬t = 0 from by omega)]
    simp only [xResidual, mkIndexes_x_start, mkIndexes_psi_start, mkIndexes_v_start,
      zero_add, haux]
  · rw [show 1 + (mkIndexes p.steps_ahead).y_start + t
        = 1 + ((mkIndexes p.steps_ahead).y_start + t) from by omega, FG_eval_fg_succ]
    simp only [FG_constraint, mkIndexes_x_start, mkIndexes_y_start, mkIndexes_psi_start,
      mkIndexes_cte_start, mkIndexes_epsi_start, mkIndexes_delta_start, mkIndexes_v_start,
      zero_add, Nat.sub_zero, Nat.add_sub_cancel_left]
    rw [if_neg (show ¬p.steps_ahead + t < p.steps_ahead from by omega),
      if_pos (show p.steps_ahead + t < 2 * p.steps_ahead from by omega),
      if_neg (show ¬p.steps_ahead + t = p.steps_ahead from by omega)]
    simp only [yResidual, mkIndexes_y_start, mkIndexes_psi_start, mkIndexes_v_start, haux]
  · rw [show 1 + (mkIndexes p.steps_ahead).psi_start + t
        = 1 + ((mkIndexes p.steps_ahead).psi_start + t) from by omega, FG_eval_fg_succ]
    simp only [FG_constraint, mkIndexes_x_start, mkIndexes_y_start, mkIndexes_psi_start,
      mkIndexes_cte_start, mkIndexes_epsi_start, mkIndexes_delta_start, mkIndexes_v_start,
      zero_add, Nat.sub_zero, Nat.add_sub_cancel_left]
    rw [if_neg (show ¬2 * p.steps_ahead + t < p.steps_ahead from by omega),
      if_neg (show ¬2 * p.steps_ahead + t < 2 * p.steps_ahead from by omega),
      if_pos (show 2 * p.steps_ahead + t < 3 * p.steps_ahead from by omega),
      if_neg (show ¬2 * p.steps_ahead + t = 2 * p.steps_ahead from by omega)]
    simp only [psiResidual, mkIndexes_psi_start, mkIndexes_delta_start, mkIndexes_v_start,
      haux]
  · rw [show 1 + (mkIndexes p.steps_ahead).cte_start + t
        = 1 + ((mkIndexes p.steps_ahead).cte_start + t) from by omega, FG_eval_fg_succ]
    simp only [FG_constraint, mkIndexes_x_start, mkIndexes_y_start, mkIndexes_psi_start,
      mkIndexes_cte_start, mkIndexes_epsi_start, mkIndexes_delta_start, mkIndexes_v_start,
      zero_add, Nat.sub_zero, Nat.add_sub_cancel_left]
    rw [if_neg (show ¬3 * p.steps_ahead + t < p.steps_ahead from by omega),
      if_neg (show ¬3 * p.steps_ahead + t < 2 * p.steps_ahead from by omega),
      if_neg (show ¬3 * p.steps_ahead + t < 3 * p.steps_ahead from by omega),
      if_pos (show 3 * p.steps_ahead + t < 4 * p.steps_ahead from by omega),
      if_neg (show ¬3 * p.steps_ahead + t = 3 * p.steps_ahead from by omega)]
    simp only [cteResidual, mkIndexes_x_start, mkIndexes_y_start, mkIndexes_cte_start,
      mkIndexes_epsi_start, mkIndexes_v_start, polyeval_eq_sum, zero_add, haux]
  · rw [show 1 + (mkIndexes p.steps_ahead).epsi_start + t
        = 1 + ((mkIndexes p.steps_ahead).epsi_start + t) from by omega, FG_eval_fg_succ]
    simp only [FG_constraint, mkIndexes_x_start, mkIndexes_y_start, mkIndexes_psi_start,
      mkIndexes_cte_start, mkIndexes_epsi_start, mkIndexes_delta_start, mkIndexes_v_start,
      zero_add, Nat.sub_zero, Nat.add_sub_cancel_left]
    rw [if_neg (show ¬4 * p.steps_ahead + t < p.steps_ahead from by omega),
      if_neg (show ¬4 * p.steps_ahead + t < 2 * p.steps_ahead from by omega),
      if_neg (show ¬4 * p.steps_ahead + t < 3 * p.steps_ahead from by omega),
      if_neg (show ¬4 * p.steps_ahead + t < 4 * p.steps_ahead from by omega),
      if_pos (show 4 * p.steps_ahead + t < 5 * p.steps_ahead from by omega),
      if_neg (show ¬4 * p.steps_ahead + t = 4 * p.steps_ahead from by omega)]
    simp only [epsiResidual, mkIndexes_x_start, mkIndexes_psi_start, mkIndexes_epsi_start,
      mkIndexes_delta_start, mkIndexes_v_start, polyeval_diff_eq_sum, zero_add, haux]

/-- Witness for C2 at horizon 2, `t = 1`, coefficients `[1, 2]`,
`vars i = i` over `ℚ`, with `cos`, `sin`, `atan` instantiated to `id`. -/
theorem dynamics_residuals_witness :
    2 ≤ exampleParams.steps_ahead ∧ (1 : ℕ) ≤ 1 ∧ 1 < exampleParams.steps_ahead ∧
    FG_eval_fg id id id ([1, 2] : List ℚ) exampleParams
        (mkIndexes exampleParams.steps_ahead) 1 (fun i => (i : ℚ))
        (1 + (mkIndexes exampleParams.steps_ahead).x_start + 1) =
      (((mkIndexes exampleParams.steps_ahead).x_start + 1 : ℕ) : ℚ) -
        ((((mkIndexes exampleParams.steps_ahead).x_start + (1 - 1) : ℕ) : ℚ) +
          (((mkIndexes exampleParams.steps_ahead).v_start + (1 - 1) : ℕ) : ℚ) *
            id ((((mkIndexes exampleParams.steps_ahead).psi_start + (1 - 1) : ℕ) : ℚ)) *
            exampleParams.dt) :=
  ⟨by decide, by decide, by decide,
    (dynamics_residuals id id id ([1, 2] : List ℚ) exampleParams 1 (fun i => (i : ℚ)) 1
      (by decide) (by decide) (by decide)).1⟩

end MPCModel
